import Mathlib

/-!
# Verification of the seiftnesse/memoryallocator heap engine

A shallow embedding of the allocator from `src/custom_alloc_core.cpp`,
`src/custom_alloc_util.cpp`, `src/custom_alloc_small.cpp` and
`src/custom_alloc_stats.cpp`, together with theorems settling the frozen
claims about it.

Modelling conventions, fixed once here:

* Machine addresses are `Nat`.  The two statically owned byte regions get
  concrete, disjoint, 16-byte-aligned base addresses (`heapBase`,
  `smallPoolBase`); their actual values are link-time artifacts of the C
  program, so any aligned disjoint pair is a faithful instantiation.
* `sizeof(segment_t)` is 48: the header packs two `int`s, two pointers,
  a `const char *`, an `int` and two `uint32_t`s — 44 bytes padded to 48
  on an LP64 platform.
* The block heap's doubly-linked segment list, which the C code threads
  through the heap bytes with `next`/`prev` pointers, is modelled as a
  `List Seg` in memory order; a node's identity is its position (the C
  pointer returned by `CutSegment`/`SearchFree` is the node itself, so a
  returned node is referenced by its index).  Each `Seg` keeps its `base`
  address, `is_free` flag and `size` in blocks.  The debug provenance
  fields (`allocation_file`, `allocation_line`, `allocation_id`) and the
  `magic` sentinel influence no control flow in the claims at hand and
  are not carried.
* The global toggles keep their defaults: `debug_mode = 0`,
  `zero_on_free_depth = ZERO_DEPTH_NONE`, `integrity_check_level = 1`.
  Under those defaults `check_memory_corruption` is a no-op and no
  zeroing happens on free, so user-byte contents never feed back into
  the metadata the claims are about; the `_memset` routine itself is
  modelled separately, byte-exactly, for the claim about it.
-/

/-! ## Compile-time constants (`custom_alloc_internal.h`) -/

def HEAP_SIZE : Nat := 64 * 1024 * 1024
def BLOCK_SIZE : Nat := 0x1000
def ALIGNMENT : Nat := 16
def SMALL_ALLOCATION_THRESHOLD : Nat := 256
def SMALL_BLOCK_SIZE : Nat := 32
def SMALL_POOL_SIZE : Nat := 1024 * 1024
def SEGMENT_MAGIC : Nat := 0xCAFEBABE
def INT_MAX : Nat := 2147483647

/-- `sizeof(segment_t)` on the LP64 layout described in the header. -/
def segHeaderSize : Nat := 48

/-- Base address of the static 64 MiB `memory` region (16-byte aligned). -/
def heapBase : Nat := 0x20000000

/-- Base address of the static 1 MiB `small_pool` region. -/
def smallPoolBase : Nat := 0x10000000

/-- Number of 32-byte slots in the small pool (32 Ki). -/
def smallTotalSlots : Nat := SMALL_POOL_SIZE / SMALL_BLOCK_SIZE

/-! ## Aligned pointer arithmetic

The C code rounds with bit masks over `uintptr_t`:
`(addr + ALIGNMENT - 1) & ~(ALIGNMENT - 1)` rounds up and
`addr & ~(ALIGNMENT - 1)` rounds down.  For the power-of-two alignment 16,
clearing the low four bits of `a` is exactly `a - a % 16`. -/

/-- `addr & ~(ALIGNMENT - 1)`: round down to the 16-byte boundary. -/
def alignDown16 (a : Nat) : Nat := a - a % 16

/-- `(addr + ALIGNMENT - 1) & ~(ALIGNMENT - 1)`: round up to the boundary. -/
def alignUp16 (a : Nat) : Nat := alignDown16 (a + 15)

theorem alignUp16_of_aligned {a : Nat} (h : a % 16 = 0) : alignUp16 a = a := by
  unfold alignUp16 alignDown16
  omega

/-! ## `GetNumBlock` (`custom_alloc_util.cpp:43`) -/

/-- Convert a byte size to blocks, rounding up, saturating against `int`
overflow exactly as the source does. -/
def GetNumBlock (size : Nat) : Nat :=
  if INT_MAX - BLOCK_SIZE < size then INT_MAX / BLOCK_SIZE
  else (size + BLOCK_SIZE - 1) / BLOCK_SIZE

theorem GetNumBlock_pos {size : Nat} (h : 0 < size) : 0 < GetNumBlock size := by
  unfold GetNumBlock INT_MAX BLOCK_SIZE
  split
  · decide
  · exact Nat.div_pos (by omega) (by omega)

/-! ## `SegmentToPtr` / `PtrToSegment` (`custom_alloc_util.cpp:143,163`)

Only the address arithmetic is relevant here: `SegmentToPtr` returns the
header address plus `sizeof(segment_t)`, rounded up to the alignment
boundary; `PtrToSegment` rounds the user pointer down to the boundary and
subtracts `sizeof(segment_t)`.  (`PtrToSegment` additionally rejects a
recovered header whose magic is wrong, but only when `debug_mode` is on;
that dispatch is modelled with the free path, for the claim about it.) -/

/-- Address computed by `SegmentToPtr` for a segment header at `a`. -/
def SegmentToPtr (a : Nat) : Nat := alignUp16 (a + segHeaderSize)

/-- Address computed by `PtrToSegment` for a user pointer `p`. -/
def PtrToSegment (p : Nat) : Nat := alignDown16 p - segHeaderSize

/-! ## Statistics (`custom_alloc_stats.cpp`)

`AllocationStats` minus the `fragmentation_bytes` field, which no code
ever reads or writes.  All counters are `size_t`, i.e. naturals. -/

structure AllocStats where
  total_allocated : Nat
  total_freed : Nat
  allocation_count : Nat
  peak_allocation : Nat
  small_pool_used : Nat
deriving Repr, DecidableEq

def AllocStats.zero : AllocStats := ⟨0, 0, 0, 0, 0⟩

/-- `update_stats_allocate` (`custom_alloc_stats.cpp:22`). -/
def update_stats_allocate (size : Nat) (st : AllocStats) : AllocStats :=
  let st := { st with
    total_allocated := st.total_allocated + size,
    allocation_count := st.allocation_count + 1 }
  if st.peak_allocation < st.total_allocated then
    { st with peak_allocation := st.total_allocated }
  else st

/-- `update_stats_free` (`custom_alloc_stats.cpp:35`): the subtraction from
`total_allocated` is clamped at zero, and `allocation_count` is clamped
at zero. -/
def update_stats_free (size : Nat) (st : AllocStats) : AllocStats :=
  let st :=
    if st.total_allocated < size then
      { st with
        total_freed := st.total_freed + st.total_allocated,
        total_allocated := 0 }
    else
      { st with
        total_allocated := st.total_allocated - size,
        total_freed := st.total_freed + size }
  if 0 < st.allocation_count then
    { st with allocation_count := st.allocation_count - 1 }
  else st

theorem update_stats_allocate_total (size : Nat) (st : AllocStats) :
    (update_stats_allocate size st).total_allocated =
      st.total_allocated + size := by
  unfold update_stats_allocate
  dsimp only
  split <;> rfl

theorem update_stats_free_total (size : Nat) (st : AllocStats) :
    (update_stats_free size st).total_allocated =
      st.total_allocated - size := by
  unfold update_stats_free
  dsimp only
  by_cases h : st.total_allocated < size <;> simp only [h, if_pos, if_neg, not_false_iff, reduceIte] <;>
    split <;> simp <;> omega

theorem update_stats_free_freed (size : Nat) (st : AllocStats) :
    (update_stats_free size st).total_freed =
      st.total_freed + min size st.total_allocated := by
  unfold update_stats_free
  dsimp only
  by_cases h : st.total_allocated < size <;> simp only [h, if_pos, if_neg, not_false_iff, reduceIte] <;>
    split <;> simp <;> omega

/-- C5: for every 16-byte-aligned segment header address `a`,
`PtrToSegment (SegmentToPtr a) = a` — the user pointer `SegmentToPtr`
derives from a header is recovered to exactly that header by rounding
down to the alignment boundary and subtracting the header size. -/
theorem c5_pointer_roundtrip (a : Nat) (h : a % 16 = 0) :
    PtrToSegment (SegmentToPtr a) = a := by
  unfold PtrToSegment SegmentToPtr alignUp16 alignDown16 segHeaderSize
  omega

/-- Witness for C5 at the (aligned) base of the main heap. -/
theorem c5_pointer_roundtrip_witness :
    PtrToSegment (SegmentToPtr heapBase) = heapBase :=
  c5_pointer_roundtrip heapBase (by decide)

/-! ## The block heap as a list of segments

`Seg` is the claim-relevant part of `segment_t`; the list is the
doubly-linked segment list in memory order (`next` = successor,
`prev` = predecessor). -/

structure Seg where
  base : Nat
  isFree : Bool
  size : Nat
deriving Repr, DecidableEq

/-- The full mutable state the public operations touch: the segment list,
the `last_free_segment` hint (held by its base address — the C pointer),
the small-pool bitmap (one `Bool` per 32-byte slot, `true` = in use) and
the statistics record. -/
structure HeapState where
  segs : List Seg
  lastFree : Option Nat
  bitmap : Nat → Bool
  stats : AllocStats

/-- State established by `HeapInit(memory, HEAP_SIZE)` (the automatic
initialization `EnsureHeapInitialized` performs): one free segment of
`HEAP_SIZE / BLOCK_SIZE` blocks, hint on it, zeroed statistics, and the
untouched (all-clear) small-pool bitmap. -/
def initState : HeapState :=
  { segs := [⟨heapBase, true, HEAP_SIZE / BLOCK_SIZE⟩]
    lastFree := some heapBase
    bitmap := fun _ => false
    stats := AllocStats.zero }

/-! ### List surgery helpers (pointer writes on the embedded list) -/

/-- Replace the node at index `i` (a write through a node pointer). -/
def modifyAt : List Seg → Nat → (Seg → Seg) → List Seg
  | [], _, _ => []
  | s :: r, 0, f => f s :: r
  | s :: r, i + 1, f => s :: modifyAt r i f

/-- Index of the node whose base address is `b` (pointer lookup). -/
def findIdxByBase : List Seg → Nat → Option Nat
  | [], _ => none
  | s :: r, b => if s.base = b then some 0 else (findIdxByBase r b).map (· + 1)

def baseAt (h : List Seg) (i : Nat) : Option Nat := (h[i]?).map (·.base)

def sizeAt (h : List Seg) (i : Nat) : Nat :=
  match h[i]? with
  | some s => s.size
  | none => 0

/-- `CutSegment` (`custom_alloc_util.cpp:57`) applied to the node at
index `i`: no-op if the node's size does not exceed `size_to_cut`;
otherwise the node keeps its base and loses `size_to_cut` blocks, and a
new node of `size_to_cut` blocks is created at
`base + (size - size_to_cut) * BLOCK_SIZE`, rounded up to the alignment
boundary, inheriting `is_free`, inserted right after it (at `i + 1`). -/
def CutSegment : List Seg → Nat → Nat → List Seg
  | [], _, _ => []
  | s :: r, 0, cut =>
    if s.size ≤ cut then s :: r
    else
      { s with size := s.size - cut } ::
        ⟨alignUp16 (s.base + (s.size - cut) * BLOCK_SIZE), s.isFree, cut⟩ :: r
  | s :: r, i + 1, cut => s :: CutSegment r i cut

/-- `MergeSegment` (`custom_alloc_util.cpp:102`) of the node at index `i`
with its successor: the first absorbs the second's size and the second
leaves the list; `last_free_segment` is redirected to the first if it
pointed at the second.  Returns the new list and hint. -/
def mergeAt : List Seg → Nat → List Seg
  | a :: b :: r, 0 => { a with size := a.size + b.size } :: r
  | a :: r, i + 1 => a :: mergeAt r i
  | l, _ => l

def MergeSegment (h : List Seg) (i : Nat) (lf : Option Nat) :
    List Seg × Option Nat :=
  match h[i]?, h[i + 1]? with
  | some a, some b =>
    (mergeAt h i, if lf = some b.base then some a.base else lf)
  | _, _ => (h, lf)

/-! ### `SearchFree` (`custom_alloc_util.cpp:7`)

Best fit: walk forward tracking the smallest free segment that still
fits; a perfect fit returns immediately.  `best` carries the candidate's
index and size (`best_size` starts at `INT_MAX`). -/

def bestSize : Option (Nat × Nat) → Nat
  | none => INT_MAX
  | some (_, sz) => sz

def searchAux : List Seg → Nat → Nat → Option (Nat × Nat) → Option Nat
  | [], _, _, best => best.map Prod.fst
  | s :: rest, req, i, best =>
    if s.isFree = true ∧ req ≤ s.size then
      if s.size < bestSize best then
        if s.size = req then some i
        else searchAux rest req (i + 1) (some (i, s.size))
      else searchAux rest req (i + 1) best
    else searchAux rest req (i + 1) best

/-- `SearchFree` starting from the node at index `j`. -/
def SearchFree (h : List Seg) (j : Nat) (req : Nat) : Option Nat :=
  searchAux (h.drop j) req j none

/-- The two-stage search `_malloc` performs: first from the
`last_free_segment` hint when it is set, then, on failure, from the list
head (`custom_alloc_core.cpp:84`). -/
def mallocSearch (st : HeapState) (required : Nat) : Option Nat :=
  let first :=
    match st.lastFree with
    | some a =>
      match findIdxByBase st.segs a with
      | some j => SearchFree st.segs j required
      | none => none
    | none => none
  match first with
  | some i => some i
  | none => SearchFree st.segs 0 required

/-! ## The small pool (`custom_alloc_small.cpp`) -/

/-- `is_small_allocation`: address range test against the pool. -/
def is_small_allocation (p : Nat) : Bool :=
  decide (smallPoolBase ≤ p ∧ p < smallPoolBase + SMALL_POOL_SIZE)

/-- One bit write in the bitmap. -/
def updateBit (bm : Nat → Bool) (i : Nat) (v : Bool) : Nat → Bool :=
  fun j => if j = i then v else bm j

/-- Set (`v = true`) or clear (`v = false`) `n` consecutive bits starting
at slot `s` — the bit-marking loops of `allocate_small` and `free_small`. -/
def setBitsRun (bm : Nat → Bool) (s : Nat) (v : Bool) : Nat → (Nat → Bool)
  | 0 => bm
  | n + 1 => setBitsRun (updateBit bm s v) (s + 1) v n

/-- The linear scan of `allocate_small` (`custom_alloc_small.cpp:23`):
walk slot `i` onward (`fuel` slots left before the pool ends), tracking
the current run of consecutive clear bits (`consec` bits ending just
before `i`, starting at `start`); the first run reaching `needed` slots
wins and its start is returned. -/
def findFreeRun (bm : Nat → Bool) (needed : Nat) :
    Nat → Nat → Nat → Nat → Option Nat
  | 0, _, _, _ => none
  | fuel + 1, i, consec, start =>
    if bm i = false then
      let start' := if consec = 0 then i else start
      if needed ≤ consec + 1 then some start'
      else findFreeRun bm needed fuel (i + 1) (consec + 1) start'
    else findFreeRun bm needed fuel (i + 1) 0 start

/-- `allocate_small` (`custom_alloc_small.cpp:10`): `none` above the
threshold or when no run of `⌈size / 32⌉` clear slots exists; otherwise
the run's bits are set, `small_pool_used` and the global statistics are
bumped by `blocks_needed * SMALL_BLOCK_SIZE`, and the slot address is
returned. -/
def allocate_small (st : HeapState) (size : Nat) : HeapState × Option Nat :=
  if SMALL_ALLOCATION_THRESHOLD < size then (st, none)
  else
    let needed := (size + SMALL_BLOCK_SIZE - 1) / SMALL_BLOCK_SIZE
    match findFreeRun st.bitmap needed smallTotalSlots 0 0 0 with
    | none => (st, none)
    | some start =>
      let bm' := setBitsRun st.bitmap start true needed
      let stats1 := { st.stats with
        small_pool_used := st.stats.small_pool_used + needed * SMALL_BLOCK_SIZE }
      let stats2 := update_stats_allocate (needed * SMALL_BLOCK_SIZE) stats1
      ({ st with bitmap := bm', stats := stats2 },
        some (smallPoolBase + start * SMALL_BLOCK_SIZE))

/-- The first pass of `free_small` (`custom_alloc_small.cpp:81`): count
set bits from slot `i` on, stopping at the first clear bit or the pool
end (`fuel` slots remain). -/
def countSetRun (bm : Nat → Bool) : Nat → Nat → Nat
  | 0, _ => 0
  | fuel + 1, i => if bm i = true then countSetRun bm fuel (i + 1) + 1 else 0

/-- `free_small` (`custom_alloc_small.cpp:63`): reject pointers outside
the pool; count the run of set bits from the pointer's slot (zero-on-free
skipped: depth defaults to none); clear those bits; when the run is
non-empty, shrink `small_pool_used` (clamped at zero) and run
`update_stats_free` on the freed byte count. -/
def free_small (st : HeapState) (p : Nat) : HeapState :=
  if p < smallPoolBase ∨ smallPoolBase + SMALL_POOL_SIZE ≤ p then st
  else
    let start := (p - smallPoolBase) / SMALL_BLOCK_SIZE
    let run := countSetRun st.bitmap (smallTotalSlots - start) start
    let bm' := setBitsRun st.bitmap start false run
    let stats' :=
      if 0 < run then
        update_stats_free (run * SMALL_BLOCK_SIZE)
          { st.stats with
            small_pool_used :=
              if run * SMALL_BLOCK_SIZE ≤ st.stats.small_pool_used then
                st.stats.small_pool_used - run * SMALL_BLOCK_SIZE
              else 0 }
      else st.stats
    { st with bitmap := bm', stats := stats' }

/-! ## `_malloc` (`custom_alloc_core.cpp:59`) -/

/-- Blocks needed for a request of `size` bytes:
`GetNumBlock(size + sizeof(segment_t) + ALIGNMENT)`, as computed at
`custom_alloc_core.cpp:80` and `custom_alloc_core.cpp:313`. -/
def requiredBlocks (size : Nat) : Nat :=
  GetNumBlock (size + segHeaderSize + ALIGNMENT)

/-- `_malloc`.  Returns the updated state and the user pointer (`none` =
`NULL`).  Requests at or below the threshold try the small pool first and
fall back to the block heap.  A chosen segment oversized by more than one
block is split: the node keeps its base and the `required` block count
and is returned to the caller; the cut-off tail holds the surplus, is
marked free, and becomes `last_free_segment`. -/
def mallocOp (st : HeapState) (size : Nat) : HeapState × Option Nat :=
  if size = 0 then (st, none)
  else
    match (if size ≤ SMALL_ALLOCATION_THRESHOLD then allocate_small st size
           else (st, none)) with
    | (st', some p) => (st', some p)
    | _ =>
      let required := requiredBlocks size
      match mallocSearch st required with
      | none => (st, none)
      | some i =>
        match st.segs[i]? with
        | none => (st, none) -- search always yields a valid index
        | some s0 =>
          let segs1 := modifyAt st.segs i (fun t => { t with isFree := false })
          if required + 1 < s0.size then
            let segs2 := CutSegment segs1 i (s0.size - required)
            let segs3 := modifyAt segs2 (i + 1)
              (fun t => { t with isFree := true })
            ({ st with
                segs := segs3
                lastFree := baseAt segs3 (i + 1)
                stats := update_stats_allocate
                  (sizeAt segs3 i * BLOCK_SIZE) st.stats },
              some (SegmentToPtr s0.base))
          else
            ({ st with
                segs := segs1
                lastFree :=
                  if st.lastFree = some s0.base then none else st.lastFree
                stats := update_stats_allocate
                  (sizeAt segs1 i * BLOCK_SIZE) st.stats },
              some (SegmentToPtr s0.base))

/-! ## `_free` (`custom_alloc_core.cpp:126`) -/

/-- `_free` on the segment-list model.  NULL and small-pool pointers
dispatch first; otherwise the pointer is recovered with `PtrToSegment`
and located in the list.  A pointer that resolves to no node is refused —
that is the behaviour of the magic-number validation, which the C code
performs only under `debug_mode`; what the non-debug build does to an
unrecognized pointer is settled separately (claim C7) on a raw-memory
model.  An already-free node is refused (double free).  Otherwise:
statistics, mark free, merge with a free successor, then with a free
predecessor, and park `last_free_segment` on the surviving node. -/
def freeOp (st : HeapState) (p : Nat) : HeapState :=
  if p = 0 then st
  else if is_small_allocation p then free_small st p
  else
    match findIdxByBase st.segs (PtrToSegment p) with
    | none => st
    | some j =>
      match st.segs[j]? with
      | none => st
      | some s =>
        if s.isFree then st
        else
          let stats1 := update_stats_free (s.size * BLOCK_SIZE) st.stats
          let segs1 := modifyAt st.segs j (fun t => { t with isFree := true })
          let lf1 : Option Nat := some s.base
          let next :=
            match segs1[j + 1]? with
            | some nxt =>
              if nxt.isFree then MergeSegment segs1 j lf1 else (segs1, lf1)
            | none => (segs1, lf1)
          let prev :=
            match j, next.1[j - 1]? with
            | 0, _ => (next.1, next.2, 0)
            | j' + 1, some prv =>
              if prv.isFree then
                let m := MergeSegment next.1 j' next.2
                (m.1, m.2, j')
              else (next.1, next.2, j' + 1)
            | j' + 1, none => (next.1, next.2, j' + 1)
          let lfFinal :=
            match prev.1[prev.2.2]? with
            | some t => some t.base
            | none => prev.2.1
          { st with segs := prev.1, lastFree := lfFinal, stats := stats1 }

/-! ## `_realloc` (`custom_alloc_core.cpp:214`) -/

/-- The bitmap scan `_realloc` uses to derive a small allocation's
current size (`custom_alloc_core.cpp:253`): count set bits forward from
the start slot — identical in shape to `free_small`'s first pass. -/
def smallOldBlocks (bm : Nat → Bool) (p : Nat) : Nat :=
  let start := (p - smallPoolBase) / SMALL_BLOCK_SIZE
  countSetRun bm (smallTotalSlots - start) start

/-- `_realloc`.  NULL pointer → `_malloc`; zero size → `_free` and NULL;
sizes above `HEAP_SIZE / 2` rejected; small-pool pointers always move
(allocate new, copy, free old — the copy itself moves user bytes, which
carry no metadata, so it is a no-op on this state).  For a block-heap
pointer: equal block count → return the pointer; smaller → possibly split
off a free tail (only when the leftover exceeds one header-plus-alignment
worth of blocks), with `update_stats_free` applied to `s->size -
required_blocks` *as read after* `CutSegment` has already shrunk
`s->size`; larger → merge with a free successor when that suffices, split
any surplus, add the growth to the statistics; otherwise move via
`_malloc` + copy + `_free`. -/
def reallocOp (st : HeapState) (p : Nat) (size : Nat) :
    HeapState × Option Nat :=
  if p = 0 then mallocOp st size
  else if size = 0 then (freeOp st p, none)
  else if HEAP_SIZE / 2 < size then (st, none)
  else if is_small_allocation p then
    match mallocOp st size with
    | (st1, none) => (st1, none)
    | (st1, some newPtr) =>
      -- old size derived from the bitmap; copy of min(new, old) bytes
      -- touches only user data
      let _oldSize := smallOldBlocks st1.bitmap p * SMALL_BLOCK_SIZE
      (freeOp st1 p, some newPtr)
  else
    match findIdxByBase st.segs (PtrToSegment p) with
    | none => (st, none) -- debug-mode magic validation; cf. claim C7
    | some j =>
      match st.segs[j]? with
      | none => (st, none)
      | some s =>
        if s.isFree then (st, none)
        else
          let required := requiredBlocks size
          if s.size = required then (st, some p)
          else if required < s.size then
            if required + GetNumBlock (segHeaderSize + ALIGNMENT) < s.size then
              let segs1 := CutSegment st.segs j (s.size - required)
              let segs2 := modifyAt segs1 (j + 1)
                (fun t => { t with isFree := true })
              ({ st with
                  segs := segs2
                  lastFree := baseAt segs2 (j + 1)
                  stats := update_stats_free (sizeAt segs2 j - required)
                    st.stats },
                some p)
            else (st, some p)
          else
            match st.segs[j + 1]? with
            | some nxt =>
              if nxt.isFree = true ∧ required ≤ s.size + nxt.size then
                let oldSize := s.size
                let merged := MergeSegment st.segs j st.lastFree
                let mergedSize := sizeAt merged.1 j
                if required + GetNumBlock (segHeaderSize + ALIGNMENT) <
                    mergedSize then
                  let segs2 := CutSegment merged.1 j (mergedSize - required)
                  let segs3 := modifyAt segs2 (j + 1)
                    (fun t => { t with isFree := true })
                  ({ st with
                      segs := segs3
                      lastFree := baseAt segs3 (j + 1)
                      stats := update_stats_allocate
                        (sizeAt segs3 j - oldSize) st.stats },
                    some p)
                else
                  ({ st with
                      segs := merged.1
                      lastFree := merged.2
                      stats := update_stats_allocate
                        (mergedSize - oldSize) st.stats },
                    some p)
              else
                match mallocOp st size with
                | (st1, none) => (st1, none)
                | (st1, some q) => (freeOp st1 p, some q)
            | none =>
              match mallocOp st size with
              | (st1, none) => (st1, none)
              | (st1, some q) => (freeOp st1 p, some q)

/-! ## Positional lemmas for the list surgery -/

theorem getListAt_append (pre : List Seg) (s : Seg) (post : List Seg) :
    (pre ++ s :: post)[pre.length]? = some s := by
  induction pre with
  | nil => simp
  | cons a r ih => simpa using ih

theorem getListAt_append_succ (pre : List Seg) (a b : Seg)
    (post : List Seg) :
    (pre ++ a :: b :: post)[pre.length + 1]? = some b := by
  have h := getListAt_append (pre ++ [a]) b post
  simpa [List.append_assoc] using h

theorem modifyAt_append (pre : List Seg) (s : Seg) (post : List Seg)
    (f : Seg → Seg) :
    modifyAt (pre ++ s :: post) pre.length f = pre ++ f s :: post := by
  induction pre with
  | nil => rfl
  | cons a r ih => simpa [modifyAt] using ih

theorem modifyAt_append_succ (pre : List Seg) (a b : Seg)
    (post : List Seg) (f : Seg → Seg) :
    modifyAt (pre ++ a :: b :: post) (pre.length + 1) f =
      pre ++ a :: f b :: post := by
  have h := modifyAt_append (pre ++ [a]) b post f
  simpa [List.append_assoc] using h

theorem CutSegment_append (pre : List Seg) (s : Seg) (post : List Seg)
    {cut : Nat} (h : cut < s.size) :
    CutSegment (pre ++ s :: post) pre.length cut =
      pre ++ { s with size := s.size - cut } ::
        ⟨alignUp16 (s.base + (s.size - cut) * BLOCK_SIZE), s.isFree, cut⟩ ::
          post := by
  induction pre with
  | nil => simp [CutSegment, Nat.not_le.mpr h]
  | cons a r ih => simpa [CutSegment] using ih

theorem mergeAt_append (pre : List Seg) (a b : Seg) (post : List Seg) :
    mergeAt (pre ++ a :: b :: post) pre.length =
      pre ++ { a with size := a.size + b.size } :: post := by
  induction pre with
  | nil => rfl
  | cons x r ih => simpa [mergeAt] using ih

theorem MergeSegment_append (pre : List Seg) (a b : Seg) (post : List Seg)
    (lf : Option Nat) :
    MergeSegment (pre ++ a :: b :: post) pre.length lf =
      (pre ++ { a with size := a.size + b.size } :: post,
        if lf = some b.base then some a.base else lf) := by
  unfold MergeSegment
  rw [getListAt_append, getListAt_append_succ, mergeAt_append]

/-! ## Claim C1 — what `_malloc`'s split actually does

The spec says the *tail* of an oversized free segment becomes the new
free segment of the requested size, the caller receives a pointer to the
tail, and the head keeps the surplus, stays free and becomes
`last_free_segment`.  The code does the opposite: `CutSegment(it,
it->size - required)` leaves the *head* (`it`, whose base address the
returned pointer is derived from) in use with exactly `required` blocks,
while the cut-off tail receives the surplus, is marked free and becomes
the hint. -/

/-- C1, counterexample: `_malloc(100000)` on the freshly initialized heap
(required = 25 blocks, initial segment 16384 blocks).  The caller gets
`heapBase + 48` — a pointer into the *head*, which is in-use with the
requested 25 blocks — while the *tail* at `heapBase + 102400` holds the
16359 surplus blocks, is free, and is the new `last_free_segment`;
contrary to the claim, the head does not remain free, the tail does not
have the requested size, and the returned pointer does not lie in the
tail. -/
theorem c1_counterexample :
    (mallocOp initState 100000).2 = some (heapBase + 48) ∧
    (mallocOp initState 100000).1.segs =
      [⟨heapBase, false, 25⟩, ⟨heapBase + 102400, true, 16359⟩] ∧
    (mallocOp initState 100000).1.lastFree = some (heapBase + 102400) ∧
    heapBase + 48 < heapBase + 102400 := by
  refine ⟨by decide, by decide, by decide, by decide⟩

/-- C1, amended: when `_malloc` selects a free segment oversized by more
than one block, the *head* of the segment keeps its base, is marked
in-use and shrunk to exactly `required_blocks`, and the caller receives
the pointer derived from the head; the *tail* becomes a new free segment
holding the surplus `s.size - required` blocks at
`base + required * BLOCK_SIZE` (aligned), and that tail becomes the new
`last_free_segment`. -/
theorem c1_amended (pre post : List Seg) (s : Seg) (lf : Option Nat)
    (bm : Nat → Bool) (stats : AllocStats) (size : Nat)
    (hsize : SMALL_ALLOCATION_THRESHOLD < size)
    (hsearch : mallocSearch ⟨pre ++ s :: post, lf, bm, stats⟩
      (requiredBlocks size) = some pre.length)
    (hbig : requiredBlocks size + 1 < s.size) :
    mallocOp ⟨pre ++ s :: post, lf, bm, stats⟩ size =
      (⟨pre ++
            { s with isFree := false, size := requiredBlocks size } ::
            ⟨alignUp16 (s.base + requiredBlocks size * BLOCK_SIZE), true,
              s.size - requiredBlocks size⟩ :: post,
          some (alignUp16 (s.base + requiredBlocks size * BLOCK_SIZE)),
          bm,
          update_stats_allocate (requiredBlocks size * BLOCK_SIZE) stats⟩,
        some (SegmentToPtr s.base)) := by
  have hne : ¬ size = 0 := by
    have : (256 : Nat) < size := hsize
    omega
  have hnsmall : ¬ size ≤ SMALL_ALLOCATION_THRESHOLD := Nat.not_le.mpr hsize
  unfold mallocOp
  rw [if_neg hne, if_neg hnsmall]
  dsimp only
  rw [hsearch]
  dsimp only
  rw [getListAt_append]
  dsimp only
  rw [if_pos hbig]
  rw [modifyAt_append]
  have hcut : s.size - requiredBlocks size <
      ({ s with isFree := false } : Seg).size := by
    dsimp
    have hgp : 0 < GetNumBlock (size + segHeaderSize + ALIGNMENT) :=
      GetNumBlock_pos (by omega)
    unfold requiredBlocks at hbig ⊢
    omega
  rw [CutSegment_append pre ({ s with isFree := false }) post hcut]
  dsimp only
  rw [modifyAt_append_succ]
  dsimp only
  have hsub : s.size - (s.size - requiredBlocks size) = requiredBlocks size := by
    omega
  rw [hsub]
  unfold baseAt sizeAt
  rw [getListAt_append_succ, getListAt_append]
  rfl

/-- Witness for C1's amended statement: the split of the initial 16384
block segment by `_malloc(100000)` (25 required blocks). -/
theorem c1_amended_witness :
    mallocOp ⟨[] ++ ⟨heapBase, true, 16384⟩ :: [], some heapBase,
        initState.bitmap, AllocStats.zero⟩ 100000 =
      (⟨[] ++
            ⟨heapBase, false, requiredBlocks 100000⟩ ::
            ⟨alignUp16 (heapBase + requiredBlocks 100000 * BLOCK_SIZE), true,
              16384 - requiredBlocks 100000⟩ :: [],
          some (alignUp16 (heapBase + requiredBlocks 100000 * BLOCK_SIZE)),
          initState.bitmap,
          update_stats_allocate (requiredBlocks 100000 * BLOCK_SIZE)
            AllocStats.zero⟩,
        some (SegmentToPtr heapBase)) :=
  c1_amended [] [] ⟨heapBase, true, 16384⟩ (some heapBase)
    initState.bitmap AllocStats.zero 100000 (by decide) (by decide) (by decide)

/-! ## Claim C4 — the shrinking-realloc statistics update

`_realloc`'s shrink path runs `CutSegment(s, s->size - required_blocks)`
*first* and only then `update_stats_free(s->size - required_blocks)`;
the cut has already set `s->size = required_blocks`, so the argument is
zero and `total_allocated` does not move at all (the call still
decrements `allocation_count`). -/

/-- State after `_malloc(100000)` on the fresh heap: one in-use 25-block
segment and one free 16359-block segment, `total_allocated = 102400`. -/
def demoSt1 : HeapState := (mallocOp initState 100000).1

/-- C4, counterexample: shrinking the 25-block allocation to 4096 bytes
(2 required blocks) leaves `total_allocated` at 102400; the claimed
subtraction of `s.size − required_blocks = 23` blocks would have left
102377. -/
theorem c4_counterexample :
    demoSt1.stats.total_allocated = 102400 ∧
    demoSt1.segs[0]? = some ⟨heapBase, false, 25⟩ ∧
    requiredBlocks 4096 = 2 ∧
    (reallocOp demoSt1 (heapBase + 48) 4096).1.stats.total_allocated =
      102400 ∧
    (102400 : Nat) ≠ 102400 - (25 - 2) := by
  refine ⟨by decide, by decide, by decide, by decide, by decide⟩

/-- C4, amended: on the shrink path that splits off a free tail,
`update_stats_free` receives `s->size - required_blocks` evaluated
*after* `CutSegment` already shrank `s->size` to `required_blocks`, i.e.
zero — so `total_allocated` is unchanged (the claimed subtraction of the
trimmed block count never happens). -/
theorem c4_amended (pre post : List Seg) (s : Seg) (lf : Option Nat)
    (bm : Nat → Bool) (stats : AllocStats) (p size : Nat)
    (hp : p ≠ 0) (hsz : size ≠ 0) (hcap : ¬ HEAP_SIZE / 2 < size)
    (hnsmall : is_small_allocation p = false)
    (hfind : findIdxByBase (pre ++ s :: post) (PtrToSegment p) =
      some pre.length)
    (hinuse : s.isFree = false)
    (hsplit : requiredBlocks size + GetNumBlock (segHeaderSize + ALIGNMENT) <
      s.size) :
    (reallocOp ⟨pre ++ s :: post, lf, bm, stats⟩ p size).1.stats.total_allocated =
      stats.total_allocated ∧
    (reallocOp ⟨pre ++ s :: post, lf, bm, stats⟩ p size).2 = some p := by
  have hreqpos : 0 < requiredBlocks size :=
    GetNumBlock_pos (by unfold segHeaderSize ALIGNMENT; omega)
  have hone : GetNumBlock (segHeaderSize + ALIGNMENT) = 1 := by decide
  have hshrink : requiredBlocks size < s.size := by omega
  have hne : ¬ s.size = requiredBlocks size := by omega
  unfold reallocOp
  rw [if_neg hp, if_neg hsz, if_neg hcap, hnsmall]
  simp only [Bool.false_eq_true, reduceIte]
  rw [hfind]
  try dsimp only
  rw [getListAt_append]
  try dsimp only
  rw [hinuse]
  simp only [Bool.false_eq_true, reduceIte]
  rw [if_neg hne, if_pos hshrink, if_pos hsplit]
  try dsimp only
  refine ⟨?_, rfl⟩
  have hcut : s.size - requiredBlocks size < s.size := by omega
  rw [CutSegment_append pre s post hcut, modifyAt_append_succ]
  unfold sizeAt
  rw [getListAt_append]
  dsimp only
  have hz : s.size - (s.size - requiredBlocks size) - requiredBlocks size = 0 := by
    omega
  rw [hz, update_stats_free_total]
  omega

/-- Witness for C4's amended statement: the concrete shrink of
`demoSt1`'s 25-block segment to 2 blocks. -/
theorem c4_amended_witness :
    (reallocOp ⟨[] ++ (⟨heapBase, false, 25⟩ : Seg) ::
        [⟨heapBase + 102400, true, 16359⟩], some (heapBase + 102400),
        initState.bitmap, demoSt1.stats⟩ (heapBase + 48)
        4096).1.stats.total_allocated = demoSt1.stats.total_allocated ∧
    (reallocOp ⟨[] ++ (⟨heapBase, false, 25⟩ : Seg) ::
        [⟨heapBase + 102400, true, 16359⟩], some (heapBase + 102400),
        initState.bitmap, demoSt1.stats⟩ (heapBase + 48) 4096).2 =
      some (heapBase + 48) :=
  c4_amended [] [⟨heapBase + 102400, true, 16359⟩] ⟨heapBase, false, 25⟩
    (some (heapBase + 102400)) initState.bitmap demoSt1.stats
    (heapBase + 48) 4096 (by decide) (by decide) (by decide) (by decide)
    (by decide) (by decide) (by decide)

/-! ## Claim C6 — realloc at the current size

For a block-heap pointer whose segment already spans exactly the
required block count, `_realloc` returns the pointer unchanged and
touches nothing.  For a *small-pool* pointer the code never reuses the
slot run: it always allocates fresh memory, copies, and frees the old
run, so the returned pointer differs from the argument. -/

/-- State holding one live small allocation of 32 bytes at slot 0. -/
def demoSmallSt : HeapState := (mallocOp initState 32).1

/-- C6, counterexample: `p = smallPoolBase` is a live small-pool pointer
whose bitmap-derived current size is 32 bytes, yet
`_realloc(p, 32)` hands back `smallPoolBase + 32` — a different
pointer — because the small path always allocates anew. -/
theorem c6_counterexample :
    (mallocOp initState 32).2 = some smallPoolBase ∧
    smallOldBlocks demoSmallSt.bitmap smallPoolBase * SMALL_BLOCK_SIZE = 32 ∧
    (reallocOp demoSmallSt smallPoolBase 32).2 = some (smallPoolBase + 32) ∧
    some (smallPoolBase + 32) ≠ some smallPoolBase := by
  refine ⟨by decide, by decide, by decide, by decide⟩

/-- C6, amended: for every live *block-heap* pointer `p` whose segment's
block count equals the required block count of `size`,
`_realloc(p, size)` returns `p` and leaves the state untouched. -/
theorem c6_amended (pre post : List Seg) (s : Seg) (lf : Option Nat)
    (bm : Nat → Bool) (stats : AllocStats) (p size : Nat)
    (hp : p ≠ 0) (hsz : size ≠ 0) (hcap : ¬ HEAP_SIZE / 2 < size)
    (hnsmall : is_small_allocation p = false)
    (hfind : findIdxByBase (pre ++ s :: post) (PtrToSegment p) =
      some pre.length)
    (hinuse : s.isFree = false)
    (heq : s.size = requiredBlocks size) :
    reallocOp ⟨pre ++ s :: post, lf, bm, stats⟩ p size =
      (⟨pre ++ s :: post, lf, bm, stats⟩, some p) := by
  unfold reallocOp
  rw [if_neg hp, if_neg hsz, if_neg hcap, hnsmall]
  simp only [Bool.false_eq_true, reduceIte]
  rw [hfind]
  try dsimp only
  rw [getListAt_append]
  try dsimp only
  rw [hinuse]
  simp only [Bool.false_eq_true, reduceIte]
  rw [if_pos heq]

/-- Witness for C6's amended statement: re-requesting 100000 bytes
(25 blocks) for `demoSt1`'s 25-block segment returns the same pointer
and state. -/
theorem c6_amended_witness :
    reallocOp ⟨[] ++ (⟨heapBase, false, 25⟩ : Seg) ::
        [⟨heapBase + 102400, true, 16359⟩], some (heapBase + 102400),
        initState.bitmap, demoSt1.stats⟩ (heapBase + 48) 100000 =
      (⟨[] ++ (⟨heapBase, false, 25⟩ : Seg) ::
        [⟨heapBase + 102400, true, 16359⟩], some (heapBase + 102400),
        initState.bitmap, demoSt1.stats⟩, some (heapBase + 48)) :=
  c6_amended [] [⟨heapBase + 102400, true, 16359⟩] ⟨heapBase, false, 25⟩
    (some (heapBase + 102400)) initState.bitmap demoSt1.stats
    (heapBase + 48) 100000 (by decide) (by decide) (by decide) (by decide)
    (by decide) (by decide) (by decide)

/-! ## Claim C3 — the `total_allocated` bound and the free-path clamp

The clamp half of the claim is real: `update_stats_free` never lets
`total_allocated` underflow.  The bound half is not: the shrinking
`_realloc` path updates the statistics with the wrong quantity (claim
C4), so each full-heap malloc / shrink / free round leaks
`67100672` bytes into `total_allocated` even though the heap ends the
round as the single free segment it started with; two rounds push the
counter past `HEAP_SIZE + SMALL_POOL_SIZE`. -/

/-- One `_malloc(67108800)` (a perfect 16384-block fit for the whole
heap) / `_realloc(·, 4096)` / `_free` round. -/
def mallocShrinkFreeCycle (st : HeapState) : HeapState :=
  let r1 := mallocOp st 67108800
  match r1.2 with
  | none => r1.1
  | some p => freeOp (reallocOp r1.1 p 4096).1 p

/-- C3, counterexample: after two malloc–shrink–free rounds — a
reachable state whose heap is again one free 16384-block segment with no
live allocation — `total_allocated` reads `134201344`, which exceeds
`HEAP_SIZE + SMALL_POOL_SIZE = 68157440`. -/
theorem c3_counterexample :
    (mallocShrinkFreeCycle (mallocShrinkFreeCycle initState)).segs =
      [⟨heapBase, true, 16384⟩] ∧
    HEAP_SIZE + SMALL_POOL_SIZE <
      (mallocShrinkFreeCycle
        (mallocShrinkFreeCycle initState)).stats.total_allocated := by
  refine ⟨by decide, by decide⟩

/-- C3, amended: the free-path clamp holds — `update_stats_free` leaves
`total_allocated` at the truncated difference (zero when the freed size
exceeds it) and credits `total_freed` with only what was actually
subtracted — but no `HEAP_SIZE + SMALL_POOL_SIZE` bound on
`total_allocated` holds at reachable states (see the counterexample). -/
theorem c3_amended (size : Nat) (st : AllocStats) :
    (update_stats_free size st).total_allocated =
      st.total_allocated - size ∧
    (update_stats_free size st).total_freed =
      st.total_freed + min size st.total_allocated :=
  ⟨update_stats_free_total size st, update_stats_free_freed size st⟩

/-! ## Claim C2 — no two adjacent free segments

The split-off tail of a shrinking `_realloc` is inserted between the
shrunk segment and its successor with no attempt to coalesce, so when
that successor is free the list ends up with two adjacent free
segments.  `_malloc` and `_free` on their own do preserve the
invariant. -/

/-- No two adjacent segments of the list are both free. -/
def noAdjFreeB : List Seg → Bool
  | a :: b :: r => (!(a.isFree && b.isFree)) && noAdjFreeB (b :: r)
  | _ => true

/-- C2, counterexample: `_malloc(100000)` then `_realloc(·, 4096)` — a
sequence of public operations from the initialized heap — leaves the
23-block tail split off by the shrink directly before the free
16359-block segment: two adjacent free segments. -/
theorem c2_counterexample :
    (reallocOp (mallocOp initState 100000).1 (heapBase + 48) 4096).1.segs =
      [⟨heapBase, false, 2⟩, ⟨heapBase + 8192, true, 23⟩,
        ⟨heapBase + 102400, true, 16359⟩] ∧
    noAdjFreeB
      (reallocOp (mallocOp initState 100000).1 (heapBase + 48)
        4096).1.segs = false := by
  refine ⟨by decide, by decide⟩

/-! ### The invariant as a `Chain'` and its transport lemmas -/

/-- Propositional form of the invariant: adjacent segments are never both
free. -/
def NoAdjFree (l : List Seg) : Prop :=
  List.Chain' (fun a b => ¬(a.isFree = true ∧ b.isFree = true)) l

theorem noAdjFreeB_iff (l : List Seg) : noAdjFreeB l = true ↔ NoAdjFree l := by
  unfold NoAdjFree
  induction l with
  | nil => simp [noAdjFreeB]
  | cons a r ih =>
    cases r with
    | nil => simp [noAdjFreeB]
    | cons b r' =>
      rw [List.chain'_cons, ← ih]
      cases ha : a.isFree <;> cases hb : b.isFree <;>
        simp [noAdjFreeB, ha, hb]

theorem NoAdjFree_parts {pre post : List Seg} {x : Seg}
    (h : NoAdjFree (pre ++ x :: post)) :
    NoAdjFree pre ∧ NoAdjFree post ∧
      (∀ a ∈ pre.getLast?, ¬(a.isFree = true ∧ x.isFree = true)) ∧
      (∀ b ∈ post.head?, ¬(x.isFree = true ∧ b.isFree = true)) := by
  rw [NoAdjFree, List.chain'_append] at h
  obtain ⟨h1, h2, h3⟩ := h
  rw [List.chain'_cons'] at h2
  exact ⟨h1, h2.2, fun a ha => h3 a ha x rfl, h2.1⟩

theorem NoAdjFree_mid {pre post : List Seg} (x : Seg)
    (h1 : NoAdjFree pre) (h2 : NoAdjFree post)
    (h3 : ∀ a ∈ pre.getLast?, ¬(a.isFree = true ∧ x.isFree = true))
    (h4 : ∀ b ∈ post.head?, ¬(x.isFree = true ∧ b.isFree = true)) :
    NoAdjFree (pre ++ x :: post) := by
  rw [NoAdjFree, List.chain'_append]
  refine ⟨h1, ?_, ?_⟩
  · rw [List.chain'_cons']
    exact ⟨h4, h2⟩
  · intro a ha y hy
    cases hy
    exact h3 a ha

/-! ### Facts feeding the preservation proof -/

theorem allocate_small_segs (st : HeapState) (size : Nat) :
    (allocate_small st size).1.segs = st.segs := by
  unfold allocate_small
  split
  · rfl
  · dsimp only
    split <;> rfl

theorem free_small_segs (st : HeapState) (p : Nat) :
    (free_small st p).segs = st.segs := by
  unfold free_small
  split <;> rfl

theorem findIdxByBase_spec {l : List Seg} {b j : Nat}
    (h : findIdxByBase l b = some j) :
    ∃ s, l[j]? = some s ∧ s.base = b := by
  induction l generalizing j with
  | nil => simp [findIdxByBase] at h
  | cons a r ih =>
    unfold findIdxByBase at h
    by_cases hb : a.base = b
    · rw [if_pos hb] at h
      cases h
      exact ⟨a, by simp, hb⟩
    · rw [if_neg hb] at h
      cases hj : findIdxByBase r b with
      | none => exact absurd h (by rw [hj]; simp)
      | some j' =>
        rw [hj] at h
        simp only [Option.map_some'] at h
        cases h
        obtain ⟨s, hs, hsb⟩ := ih hj
        exact ⟨s, by simpa using hs, hsb⟩

theorem decomp_of_getElem? {l : List Seg} {i : Nat} {s : Seg}
    (h : l[i]? = some s) :
    ∃ pre post, l = pre ++ s :: post ∧ pre.length = i := by
  induction l generalizing i with
  | nil => simp at h
  | cons a r ih =>
    cases i with
    | zero =>
      simp only [List.getElem?_cons_zero, Option.some_inj] at h
      exact ⟨[], r, by simp [h], rfl⟩
    | succ j =>
      simp only [List.getElem?_cons_succ] at h
      obtain ⟨pre, post, he, hl⟩ := ih h
      exact ⟨a :: pre, post, by rw [he]; rfl, by simp [hl]⟩

theorem getListAt_append_succ_head (pre : List Seg) (x : Seg)
    (post : List Seg) :
    (pre ++ x :: post)[pre.length + 1]? = post.head? := by
  induction pre with
  | nil =>
    cases post with
    | nil => rfl
    | cons b t => simp
  | cons a r ih => simpa using ih

/-- Any index `searchAux` returns points at a free segment large enough
for the request. -/
theorem searchAux_spec (full : List Seg) (req : Nat) :
    ∀ (l : List Seg) (i : Nat) (best : Option (Nat × Nat)) (r : Nat),
      (∀ k, l[k]? = full[i + k]?) →
      (∀ b sz, best = some (b, sz) →
        ∃ s, full[b]? = some s ∧ s.isFree = true ∧ req ≤ s.size) →
      searchAux l req i best = some r →
      ∃ s, full[r]? = some s ∧ s.isFree = true ∧ req ≤ s.size := by
  intro l
  induction l with
  | nil =>
    intro i best r _ hbest hres
    unfold searchAux at hres
    cases best with
    | none => simp at hres
    | some p =>
      simp only [Option.map_some'] at hres
      cases hres
      exact hbest p.1 p.2 rfl
  | cons s rest ih =>
    intro i best r hl hbest hres
    have h0 : full[i]? = some s := by
      have := hl 0
      simpa using this.symm
    have hl' : ∀ k, rest[k]? = full[i + 1 + k]? := by
      intro k
      have := hl (k + 1)
      simpa [Nat.add_assoc, Nat.add_comm 1 k] using this
    unfold searchAux at hres
    by_cases hfree : s.isFree = true ∧ req ≤ s.size
    · rw [if_pos hfree] at hres
      by_cases hlt : s.size < bestSize best
      · rw [if_pos hlt] at hres
        by_cases hperf : s.size = req
        · rw [if_pos hperf] at hres
          cases hres
          exact ⟨s, h0, hfree.1, hfree.2⟩
        · rw [if_neg hperf] at hres
          refine ih (i + 1) (some (i, s.size)) r hl' ?_ hres
          intro b sz hb
          cases hb
          exact ⟨s, h0, hfree.1, hfree.2⟩
      · rw [if_neg hlt] at hres
        exact ih (i + 1) best r hl' hbest hres
    · rw [if_neg hfree] at hres
      exact ih (i + 1) best r hl' hbest hres

theorem SearchFree_spec {h : List Seg} {j req r : Nat}
    (hres : SearchFree h j req = some r) :
    ∃ s, h[r]? = some s ∧ s.isFree = true ∧ req ≤ s.size := by
  refine searchAux_spec h req (h.drop j) j none r ?_ (by simp) hres
  intro k
  simp [List.getElem?_drop]

theorem mallocSearch_spec {st : HeapState} {req i : Nat}
    (h : mallocSearch st req = some i) :
    ∃ s, st.segs[i]? = some s ∧ s.isFree = true ∧ req ≤ s.size := by
  unfold mallocSearch at h
  dsimp only at h
  cases hlf : st.lastFree with
  | none =>
    rw [hlf] at h
    dsimp only at h
    exact SearchFree_spec h
  | some a =>
    rw [hlf] at h
    dsimp only at h
    cases hfi : findIdxByBase st.segs a with
    | none =>
      rw [hfi] at h
      dsimp only at h
      exact SearchFree_spec h
    | some j =>
      rw [hfi] at h
      dsimp only at h
      cases hsf : SearchFree st.segs j req with
      | none =>
        rw [hsf] at h
        dsimp only at h
        exact SearchFree_spec h
      | some r =>
        rw [hsf] at h
        dsimp only at h
        cases h
        exact SearchFree_spec hsf

/-! ### `_malloc` preserves the invariant -/

theorem NoAdjFree_replace {pre post : List Seg} {s : Seg} (x : Seg)
    (hna : NoAdjFree (pre ++ s :: post)) (hx : x.isFree = false) :
    NoAdjFree (pre ++ x :: post) := by
  obtain ⟨h1, h2, h3, h4⟩ := NoAdjFree_parts hna
  refine NoAdjFree_mid x h1 h2 ?_ ?_
  · intro a ha hc
    rw [hx] at hc
    exact absurd hc.2 (by simp)
  · intro b hb hc
    rw [hx] at hc
    exact absurd hc.1 (by simp)

theorem NoAdjFree_split {pre post : List Seg} {s : Seg} (x t : Seg)
    (hna : NoAdjFree (pre ++ s :: post)) (hs : s.isFree = true)
    (hx : x.isFree = false) : NoAdjFree (pre ++ x :: t :: post) := by
  obtain ⟨h1, h2, h3, h4⟩ := NoAdjFree_parts hna
  have hhead : ∀ b ∈ post.head?, b.isFree = false := by
    intro b hb
    cases hbf : b.isFree
    · rfl
    · exact absurd ⟨hs, hbf⟩ (h4 b hb)
  refine NoAdjFree_mid x h1 ?_ ?_ ?_
  · rw [NoAdjFree, List.chain'_cons']
    refine ⟨?_, h2⟩
    intro b hb hc
    rw [hhead b hb] at hc
    exact absurd hc.2 (by simp)
  · intro a ha hc
    rw [hx] at hc
    exact absurd hc.2 (by simp)
  · intro b hb hc
    rw [hx] at hc
    exact absurd hc.1 (by simp)

theorem mallocOp_preserves (st : HeapState) (size : Nat)
    (h : NoAdjFree st.segs) : NoAdjFree (mallocOp st size).1.segs := by
  unfold mallocOp
  by_cases h0 : size = 0
  · rw [if_pos h0]
    exact h
  · rw [if_neg h0]
    dsimp only
    rcases hsm : (if size ≤ SMALL_ALLOCATION_THRESHOLD then
        allocate_small st size else (st, none)) with ⟨st', po⟩
    cases po with
    | some p =>
      dsimp only
      have hsegs : st'.segs = st.segs := by
        by_cases ht : size ≤ SMALL_ALLOCATION_THRESHOLD
        · rw [if_pos ht] at hsm
          have hx := allocate_small_segs st size
          rw [hsm] at hx
          exact hx
        · rw [if_neg ht] at hsm
          simp at hsm
      rw [hsegs]
      exact h
    | none =>
      dsimp only
      rcases hms : mallocSearch st (requiredBlocks size) with _ | i
      · exact h
      · dsimp only
        obtain ⟨s, hsi, hsfree, hsfit⟩ := mallocSearch_spec hms
        rw [hsi]
        dsimp only
        obtain ⟨pre, post, hdec, hlen⟩ := decomp_of_getElem? hsi
        rw [hdec] at h
        by_cases hbig : requiredBlocks size + 1 < s.size
        · rw [if_pos hbig]
          dsimp only
          rw [hdec, ← hlen, modifyAt_append]
          have hcut : s.size - requiredBlocks size <
              ({ s with isFree := false } : Seg).size := by
            dsimp only
            have hrp : 0 < requiredBlocks size :=
              GetNumBlock_pos (by unfold segHeaderSize ALIGNMENT; omega)
            omega
          rw [CutSegment_append pre _ post hcut, modifyAt_append_succ]
          exact NoAdjFree_split _ _ h hsfree rfl
        · rw [if_neg hbig]
          dsimp only
          rw [hdec, ← hlen, modifyAt_append]
          exact NoAdjFree_replace _ h rfl

/-! ### `_free` preserves the invariant -/

theorem NoAdjFree_reassemble (pre' post' : List Seg) (x : Seg)
    (h1 : NoAdjFree pre') (h2 : NoAdjFree post')
    (h3 : ∀ a ∈ pre'.getLast?, a.isFree = false)
    (h4 : ∀ b ∈ post'.head?, b.isFree = false) :
    NoAdjFree (pre' ++ x :: post') := by
  refine NoAdjFree_mid x h1 h2 ?_ ?_
  · intro a ha hc
    rw [h3 a ha] at hc
    exact absurd hc.1 (by simp)
  · intro b hb hc
    rw [h4 b hb] at hc
    exact absurd hc.2 (by simp)

theorem NoAdjFree_cons_of (x : Seg) (post' : List Seg)
    (h2 : NoAdjFree post') (h4 : ∀ b ∈ post'.head?, b.isFree = false) :
    NoAdjFree (x :: post') := by
  rw [NoAdjFree, List.chain'_cons']
  refine ⟨?_, h2⟩
  intro b hb hc
  rw [h4 b hb] at hc
  exact absurd hc.2 (by simp)

theorem NoAdjFree_mid2 (pre₀ : List Seg) (y x : Seg) (post' : List Seg)
    (h1 : NoAdjFree pre₀) (h2 : NoAdjFree post')
    (h3 : ∀ a ∈ pre₀.getLast?, ¬(a.isFree = true ∧ y.isFree = true))
    (hy : y.isFree = false)
    (h4 : ∀ b ∈ post'.head?, b.isFree = false) :
    NoAdjFree (pre₀ ++ y :: x :: post') := by
  refine NoAdjFree_mid y h1 (NoAdjFree_cons_of x post' h2 h4) h3 ?_
  intro b hb hc
  have hbx : b = x := by
    have := hb
    simp only [List.head?_cons, Option.mem_def, Option.some_inj] at this
    exact this.symm
  rw [hbx, hy] at hc
  exact absurd hc.1 (by simp)

theorem freeOp_preserves (st : HeapState) (p : Nat)
    (h : NoAdjFree st.segs) : NoAdjFree (freeOp st p).segs := by
  unfold freeOp
  by_cases h0 : p = 0
  · rw [if_pos h0]
    exact h
  · rw [if_neg h0]
    cases hsm : is_small_allocation p with
    | true =>
      simp only [reduceIte]
      rw [free_small_segs]
      exact h
    | false =>
      simp only [Bool.false_eq_true, reduceIte]
      rcases hfi : findIdxByBase st.segs (PtrToSegment p) with _ | j
      · exact h
      · try dsimp only
        obtain ⟨s, hsj, hsb⟩ := findIdxByBase_spec hfi
        rw [hsj]
        try dsimp only
        cases hfree : s.isFree with
        | true =>
          simp only [reduceIte]
          exact h
        | false =>
          simp only [Bool.false_eq_true, reduceIte]
          try dsimp only
          obtain ⟨pre, post, hdec, hlen⟩ := decomp_of_getElem? hsj
          rw [hdec] at h
          rw [hdec, ← hlen, modifyAt_append]
          obtain ⟨hp, hq, hlk1, hlk2⟩ := NoAdjFree_parts h
          rw [getListAt_append_succ_head]
          cases post with
          | nil =>
            simp only [List.head?_nil]
            try dsimp only
            have hq' : NoAdjFree ([] : List Seg) := List.chain'_nil
            have hpost' : ∀ b ∈ ([] : List Seg).head?, b.isFree = false := by
              simp
            rcases List.eq_nil_or_concat pre with rfl | ⟨pre₀, prv, rfl⟩
            · simp only [List.length_nil, List.nil_append]
              try dsimp only
              exact NoAdjFree_cons_of _ _ hq' hpost'
            · rw [List.concat_eq_append] at hp ⊢
              have hlen2 : (pre₀ ++ [prv]).length = pre₀.length + 1 := by
                simp
              rw [hlen2]
              simp only [Nat.add_sub_cancel]
              rw [List.append_assoc, List.singleton_append, getListAt_append]
              obtain ⟨hp0, -, hpl, -⟩ :=
                @NoAdjFree_parts pre₀ [] prv hp
              try dsimp only
              by_cases hprv : prv.isFree = true
              · rw [if_pos hprv]
                rw [MergeSegment_append]
                try dsimp only
                refine NoAdjFree_reassemble pre₀ _ _ hp0 hq' ?_ hpost'
                intro a ha
                cases haf : a.isFree
                · rfl
                · exact absurd ⟨haf, hprv⟩ (hpl a ha)
              · rw [if_neg hprv]
                try dsimp only
                refine NoAdjFree_mid2 pre₀ prv _ _ hp0 hq' hpl ?_ hpost'
                revert hprv
                cases prv.isFree <;> simp
          | cons nxt post₂ =>
            simp only [List.head?_cons]
            try dsimp only
            have hq2 := hq
            rw [NoAdjFree, List.chain'_cons'] at hq2
            obtain ⟨hqhead, hq₂⟩ := hq2
            cases hnxt : nxt.isFree with
            | true =>
              simp only [reduceIte]
              rw [MergeSegment_append]
              try dsimp only
              have hpost' : ∀ b ∈ post₂.head?, b.isFree = false := by
                intro b hb
                cases hbf : b.isFree
                · rfl
                · exact absurd ⟨hnxt, hbf⟩ (hqhead b hb)
              rcases List.eq_nil_or_concat pre with rfl | ⟨pre₀, prv, rfl⟩
              · simp only [List.length_nil, List.nil_append]
                try dsimp only
                exact NoAdjFree_cons_of _ _ hq₂ hpost'
              · rw [List.concat_eq_append] at hp ⊢
                have hlen2 : (pre₀ ++ [prv]).length = pre₀.length + 1 := by
                  simp
                rw [hlen2]
                simp only [Nat.add_sub_cancel]
                rw [List.append_assoc, List.singleton_append,
                  getListAt_append]
                obtain ⟨hp0, -, hpl, -⟩ :=
                  @NoAdjFree_parts pre₀ [] prv hp
                try dsimp only
                by_cases hprv : prv.isFree = true
                · rw [if_pos hprv]
                  rw [MergeSegment_append]
                  try dsimp only
                  refine NoAdjFree_reassemble pre₀ _ _ hp0 hq₂ ?_ hpost'
                  intro a ha
                  cases haf : a.isFree
                  · rfl
                  · exact absurd ⟨haf, hprv⟩ (hpl a ha)
                · rw [if_neg hprv]
                  try dsimp only
                  refine NoAdjFree_mid2 pre₀ prv _ _ hp0 hq₂ hpl ?_ hpost'
                  revert hprv
                  cases prv.isFree <;> simp
            | false =>
              simp only [Bool.false_eq_true, reduceIte]
              try dsimp only
              have hpost' : ∀ b ∈ (nxt :: post₂).head?, b.isFree = false := by
                intro b hb
                have hbn : b = nxt := by
                  have := hb
                  simp only [List.head?_cons, Option.mem_def,
                    Option.some_inj] at this
                  exact this.symm
                rw [hbn]
                exact hnxt
              rcases List.eq_nil_or_concat pre with rfl | ⟨pre₀, prv, rfl⟩
              · simp only [List.length_nil, List.nil_append]
                try dsimp only
                exact NoAdjFree_cons_of _ _ hq hpost'
              · rw [List.concat_eq_append] at hp ⊢
                have hlen2 : (pre₀ ++ [prv]).length = pre₀.length + 1 := by
                  simp
                rw [hlen2]
                simp only [Nat.add_sub_cancel]
                rw [List.append_assoc, List.singleton_append,
                  getListAt_append]
                obtain ⟨hp0, -, hpl, -⟩ :=
                  @NoAdjFree_parts pre₀ [] prv hp
                try dsimp only
                by_cases hprv : prv.isFree = true
                · rw [if_pos hprv]
                  rw [MergeSegment_append]
                  try dsimp only
                  refine NoAdjFree_reassemble pre₀ _ _ hp0 hq ?_ hpost'
                  intro a ha
                  cases haf : a.isFree
                  · rfl
                  · exact absurd ⟨haf, hprv⟩ (hpl a ha)
                · rw [if_neg hprv]
                  try dsimp only
                  refine NoAdjFree_mid2 pre₀ prv _ _ hp0 hq hpl ?_ hpost'
                  revert hprv
                  cases prv.isFree <;> simp

/-! ### The amended invariant over operation traces -/

/-- A public operation of the amended claim: `_malloc` of any size, or
`_free` of any pointer. -/
inductive HeapOp where
  | malloc (size : Nat)
  | free (ptr : Nat)

def applyOp (st : HeapState) : HeapOp → HeapState
  | .malloc n => (mallocOp st n).1
  | .free p => freeOp st p

def runOps (st : HeapState) (ops : List HeapOp) : HeapState :=
  ops.foldl applyOp st

theorem runOps_preserves (ops : List HeapOp) :
    ∀ st : HeapState, NoAdjFree st.segs → NoAdjFree (runOps st ops).segs := by
  induction ops with
  | nil => intro st h; exact h
  | cons op rest ih =>
    intro st h
    cases op with
    | malloc n => exact ih _ (mallocOp_preserves st n h)
    | free p => exact ih _ (freeOp_preserves st p h)

/-- C2, amended: after any sequence of `_malloc` calls and `_free` calls
from the initialized heap, no two adjacent segments of the list are both
free (frees of pointers that do not resolve to a listed segment are
refused, as the debug-mode magic validation does).  The unamended claim
also covered `_realloc`; its shrink path splits off a free tail without
coalescing and breaks the invariant (see the counterexample). -/
theorem c2_amended (ops : List HeapOp) :
    noAdjFreeB (runOps initState ops).segs = true := by
  rw [noAdjFreeB_iff]
  exact runOps_preserves ops initState (by rw [← noAdjFreeB_iff]; decide)

/-! ## Claim C7 — `_free` on a pointer the allocator never produced

`PtrToSegment` validates the recovered header's magic only when
`debug_mode` is on (`custom_alloc_util.cpp:176`).  With debug off it
returns the computed address unconditionally, and `_free` carries on:
reads the zeroed bytes there as a header, treats `is_free = 0` as a live
segment, and updates the free-segment hint (and writes an `is_free` flag
into heap payload bytes).  The claim's "ignored silently … in both debug
and non-debug mode" is therefore true only for debug mode.

The raw-memory model below fixes the heap state this claim is probed in:
the freshly initialized heap, where the only header ever written is the
initial one at `heapBase` and every other heap byte is zero (static
storage).  `freshRead a` is what interpreting the bytes at `a` as a
`segment_t` yields there. -/

/-- The `segment_t` fields `_free` reads (raw integer values;
`next`/`prev` as addresses, `0` = `NULL`). -/
structure RawHeader where
  is_free : Nat
  size : Nat
  next : Nat
  prev : Nat
  magic : Nat
deriving Repr, DecidableEq

/-- Bytes of the freshly initialized heap viewed as a header at `a`:
the real header at `heapBase` (free, 16384 blocks, no neighbours), zeroes
everywhere else. -/
def freshRead (a : Nat) : RawHeader :=
  if a = heapBase then ⟨1, HEAP_SIZE / BLOCK_SIZE, 0, 0, SEGMENT_MAGIC⟩
  else ⟨0, 0, 0, 0, 0⟩

/-- `PtrToSegment` on the fresh heap, including the debug-only magic
check. -/
def ptrToSegmentFresh (debug : Bool) (p : Nat) : Option Nat :=
  if p = 0 then none
  else
    let a := PtrToSegment p
    if debug ∧ (freshRead a).magic ≠ SEGMENT_MAGIC then none else some a

/-- What `_free` leaves of the claim-relevant state: the
`last_free_segment` hint, the statistics, and the address whose
`is_free` field was overwritten (i.e. whether any heap byte was
modified), `none` when the call returned without writing. -/
structure FreshFreeOut where
  lastFree : Option Nat
  stats : AllocStats
  markedFree : Option Nat
deriving Repr, DecidableEq

/-- `_free` (`custom_alloc_core.cpp:126`) on the fresh heap.  The
small-pool dispatch is a no-op here: the fresh bitmap is all-clear, so
`free_small` counts a zero run and changes nothing.
`check_memory_corruption` is a no-op with debug off; with debug on it is
reached only past the magic check, and the valid fresh header needs no
level-1 repair.  Zero-on-free is at its default depth of none. -/
def freeFresh (debug : Bool) (lf : Option Nat) (stats : AllocStats)
    (p : Nat) : FreshFreeOut :=
  if p = 0 then ⟨lf, stats, none⟩
  else if is_small_allocation p then ⟨lf, stats, none⟩
  else
    match ptrToSegmentFresh debug p with
    | none => ⟨lf, stats, none⟩
    | some a =>
      let s := freshRead a
      if s.is_free ≠ 0 then ⟨lf, stats, none⟩
      else
        let stats1 := update_stats_free (s.size * BLOCK_SIZE) stats
        -- s->is_free = 1; last_free_segment = s; then the merge attempts
        -- via s->next / s->prev (zero on every reachable branch here)
        let surviving :=
          if s.prev ≠ 0 ∧ (freshRead s.prev).is_free ≠ 0 then s.prev else a
        ⟨some surviving, stats1, some a⟩

/-- C7, counterexample: with debug off, freeing
`heapBase + 4144` — a pointer the allocator never produced, whose
recovered header `heapBase + 4096` carries no magic — is *not* ignored:
the free-segment hint moves from `heapBase` to the bogus header address,
and an `is_free` flag is written into the heap's payload bytes. -/
theorem c7_counterexample :
    (freshRead (PtrToSegment (heapBase + 4144))).magic ≠ SEGMENT_MAGIC ∧
    (freeFresh false (some heapBase) AllocStats.zero
        (heapBase + 4144)).lastFree = some (heapBase + 4096) ∧
    some (heapBase + 4096) ≠ some heapBase ∧
    (freeFresh false (some heapBase) AllocStats.zero
        (heapBase + 4144)).markedFree = some (heapBase + 4096) := by
  refine ⟨by decide, by decide, by decide, by decide⟩

/-- C7, amended: in *debug* mode, `_free` of a non-null pointer that is
not in the small pool and whose recovered header fails the magic check
returns without touching the hint, the statistics, or any heap byte.
(In non-debug mode `PtrToSegment` performs no validation and `_free`
proceeds on the recovered address — see the counterexample.) -/
theorem c7_amended (lf : Option Nat) (stats : AllocStats) (p : Nat)
    (hp : p ≠ 0)
    (hmagic : (freshRead (PtrToSegment p)).magic ≠ SEGMENT_MAGIC) :
    freeFresh true lf stats p = ⟨lf, stats, none⟩ := by
  unfold freeFresh
  rw [if_neg hp]
  by_cases hsm : is_small_allocation p = true
  · rw [if_pos hsm]
  · simp only [Bool.not_eq_true] at hsm
    rw [hsm]
    simp only [Bool.false_eq_true, reduceIte]
    unfold ptrToSegmentFresh
    rw [if_neg hp]
    dsimp only
    rw [if_pos ⟨rfl, hmagic⟩]

/-- Witness for C7's amended statement at the counterexample's pointer,
with debug mode on. -/
theorem c7_amended_witness :
    freeFresh true (some heapBase) AllocStats.zero (heapBase + 4144) =
      ⟨some heapBase, AllocStats.zero, none⟩ :=
  c7_amended (some heapBase) AllocStats.zero (heapBase + 4144)
    (by decide) (by decide)

/-! ## Claim C8 — the fragmentation estimate

`HeapGetFragmentation` (`custom_alloc_stats.cpp:57`) walks the list
accumulating the free-segment count `k` and free byte total `F`, then
returns `1 - (F/k)/F`.  The C function computes in `float`; the model
computes the same expressions exactly over `ℚ`, i.e. the claim is
settled at the level of the algorithm's real-number algebra, not IEEE
rounding. -/

/-- The walk: number of free segments and total free bytes. -/
def freeSegStats : List Seg → Nat × Nat
  | [] => (0, 0)
  | s :: r =>
    let kf := freeSegStats r
    if s.isFree then (kf.1 + 1, kf.2 + s.size * BLOCK_SIZE) else kf

/-- `HeapGetFragmentation`: 0 when the heap is uninitialized or no free
memory exists, else `1 - avg/F` with `avg = F/k`. -/
def HeapGetFragmentation (initialized : Bool) (segs : List Seg) : ℚ :=
  if initialized = false then 0
  else
    let k := (freeSegStats segs).1
    let F := (freeSegStats segs).2
    if F = 0 then 0
    else
      let avg : ℚ := (F : ℚ) / (k : ℚ)
      1 - avg / (F : ℚ)

theorem freeSegStats_count_zero (segs : List Seg)
    (h : (freeSegStats segs).1 = 0) : (freeSegStats segs).2 = 0 := by
  induction segs with
  | nil => rfl
  | cons s r ih =>
    unfold freeSegStats at h ⊢
    dsimp only at h ⊢
    cases hsf : s.isFree with
    | true => rw [hsf] at h; simp at h
    | false =>
      rw [hsf] at h
      simp only [Bool.false_eq_true, reduceIte] at h ⊢
      exact ih h

/-- C8: `HeapGetFragmentation` returns 0 when the heap is uninitialized
or the total free memory is zero, returns exactly `1 - 1/k` (with `k`
the number of free segments) otherwise, and always lies in `[0, 1)`. -/
theorem c8_fragmentation (initialized : Bool) (segs : List Seg) :
    (initialized = false → HeapGetFragmentation initialized segs = 0) ∧
    ((freeSegStats segs).2 = 0 →
      HeapGetFragmentation initialized segs = 0) ∧
    (initialized = true → (freeSegStats segs).2 ≠ 0 →
      HeapGetFragmentation initialized segs =
        1 - 1 / ((freeSegStats segs).1 : ℚ)) ∧
    0 ≤ HeapGetFragmentation initialized segs ∧
    HeapGetFragmentation initialized segs < 1 := by
  cases initialized with
  | false =>
    have h0 : HeapGetFragmentation false segs = 0 := rfl
    refine ⟨fun _ => h0, fun _ => h0, ?_, ?_, ?_⟩
    · intro hc
      exact absurd hc (by simp)
    · rw [h0]
    · rw [h0]
      norm_num
  | true =>
    by_cases hF : (freeSegStats segs).2 = 0
    · have h0 : HeapGetFragmentation true segs = 0 := by
        unfold HeapGetFragmentation
        rw [if_neg (by simp)]
        dsimp only
        rw [if_pos hF]
      refine ⟨fun hc => absurd hc (by simp), fun _ => h0,
        fun _ hc => absurd hF hc, ?_, ?_⟩
      · rw [h0]
      · rw [h0]
        norm_num
    · have hk : (freeSegStats segs).1 ≠ 0 := by
        intro hk0
        exact hF (freeSegStats_count_zero segs hk0)
      have hkQ : ((freeSegStats segs).1 : ℚ) ≠ 0 := by
        exact_mod_cast hk
      have hFQ : ((freeSegStats segs).2 : ℚ) ≠ 0 := by
        exact_mod_cast hF
      have hval : HeapGetFragmentation true segs =
          1 - 1 / ((freeSegStats segs).1 : ℚ) := by
        unfold HeapGetFragmentation
        rw [if_neg (by simp)]
        dsimp only
        rw [if_neg hF]
        rw [div_div]
        congr 1
        rw [mul_comm]
        rw [div_mul_eq_div_div, div_self hFQ]
      have hk1 : (1 : ℚ) ≤ ((freeSegStats segs).1 : ℚ) := by
        have h1 : 1 ≤ (freeSegStats segs).1 := Nat.one_le_iff_ne_zero.mpr hk
        exact_mod_cast h1
      have hinv_pos : 0 < 1 / ((freeSegStats segs).1 : ℚ) :=
        div_pos one_pos (by linarith)
      have hinv_le : 1 / ((freeSegStats segs).1 : ℚ) ≤ 1 := by
        rw [div_le_one (by linarith)]
        exact hk1
      refine ⟨fun hc => absurd hc (by simp), fun hc => absurd hc hF,
        fun _ _ => hval, ?_, ?_⟩
      · rw [hval]
        linarith
      · rw [hval]
        linarith

/-- Witness for C8 on a two-free-segment heap: the estimate is
`1 - 1/2` and lies in `[0, 1)`. -/
theorem c8_fragmentation_witness :
    HeapGetFragmentation true
        [⟨heapBase, true, 25⟩, ⟨heapBase + 102400, true, 16359⟩] =
      1 - 1 / ((freeSegStats
        [⟨heapBase, true, 25⟩, ⟨heapBase + 102400, true, 16359⟩]).1 : ℚ) ∧
    (0 : ℚ) ≤ HeapGetFragmentation true
        [⟨heapBase, true, 25⟩, ⟨heapBase + 102400, true, 16359⟩] ∧
    HeapGetFragmentation true
        [⟨heapBase, true, 25⟩, ⟨heapBase + 102400, true, 16359⟩] < 1 := by
  have h := c8_fragmentation true
    [⟨heapBase, true, 25⟩, ⟨heapBase + 102400, true, 16359⟩]
  exact ⟨h.2.2.1 rfl (by decide), h.2.2.2.1, h.2.2.2.2⟩

/-! ## Claim C9 — `free_small` clears the maximal set run

`free_small` derives the run length by scanning the bitmap forward from
the pointer's slot until the first clear bit, then clears exactly that
many bits and subtracts that many bytes from `small_pool_used` and the
global statistics — so a second live allocation sitting immediately
after the freed one, with no clear bit between, is swept up too. -/

theorem countSetRun_le (bm : Nat → Bool) :
    ∀ fuel start, countSetRun bm fuel start ≤ fuel := by
  intro fuel
  induction fuel with
  | zero => intro start; exact Nat.le_refl 0
  | succ f ih =>
    intro start
    unfold countSetRun
    split
    · exact Nat.succ_le_succ (ih (start + 1))
    · exact Nat.zero_le _

theorem countSetRun_set (bm : Nat → Bool) :
    ∀ fuel start i, i < countSetRun bm fuel start →
      bm (start + i) = true := by
  intro fuel
  induction fuel with
  | zero => intro start i hi; simp [countSetRun] at hi
  | succ f ih =>
    intro start i hi
    unfold countSetRun at hi
    by_cases hb : bm start = true
    · rw [if_pos hb] at hi
      cases i with
      | zero => simpa using hb
      | succ i' =>
        have hi' : i' < countSetRun bm f (start + 1) := by omega
        have := ih (start + 1) i' hi'
        have harr : start + 1 + i' = start + (i' + 1) := by omega
        rw [harr] at this
        exact this
    · rw [if_neg hb] at hi
      omega

theorem countSetRun_max (bm : Nat → Bool) :
    ∀ fuel start, countSetRun bm fuel start < fuel →
      bm (start + countSetRun bm fuel start) = false := by
  intro fuel
  induction fuel with
  | zero => intro start h; omega
  | succ f ih =>
    intro start h
    unfold countSetRun at h ⊢
    by_cases hb : bm start = true
    · rw [if_pos hb] at h ⊢
      have h' : countSetRun bm f (start + 1) < f := by omega
      have := ih (start + 1) h'
      have harr : start + 1 + countSetRun bm f (start + 1) =
          start + (countSetRun bm f (start + 1) + 1) := by omega
      rw [harr] at this
      exact this
    · rw [if_neg hb] at h ⊢
      simp only [Nat.add_zero]
      revert hb
      cases bm start <;> simp

theorem setBitsRun_spec (v : Bool) :
    ∀ (n : Nat) (bm : Nat → Bool) (s j : Nat),
      setBitsRun bm s v n j =
        if s ≤ j ∧ j < s + n then v else bm j := by
  intro n
  induction n with
  | zero =>
    intro bm s j
    rw [setBitsRun]
    rw [if_neg (by omega)]
  | succ m ih =>
    intro bm s j
    rw [setBitsRun, ih]
    unfold updateBit
    by_cases h1 : s + 1 ≤ j ∧ j < s + 1 + m
    · rw [if_pos h1, if_pos (by omega)]
    · rw [if_neg h1]
      by_cases h2 : j = s
      · rw [if_pos h2, if_pos (by omega)]
      · rw [if_neg h2, if_neg (by omega)]

theorem update_stats_free_spu (size : Nat) (st : AllocStats) :
    (update_stats_free size st).small_pool_used = st.small_pool_used := by
  unfold update_stats_free
  dsimp only
  by_cases h : st.total_allocated < size <;>
    simp only [h, if_pos, if_neg, not_false_iff, reduceIte] <;>
    split <;> rfl

/-- C9: freeing the small-pool pointer of slot `start` (whose bit is
set) clears exactly the maximal run of consecutive set bits starting
there — every bit in `[start, start + r)` was set, the run ends at the
pool boundary or at a clear bit, exactly those bits become clear and all
others are untouched — and `r * SMALL_BLOCK_SIZE` bytes are subtracted
from `small_pool_used` (clamped) and pushed through
`update_stats_free`. -/
theorem c9_free_small_run (st : HeapState) (start : Nat)
    (hstart : start < smallTotalSlots)
    (hbit : st.bitmap start = true) :
    (∀ i, i < countSetRun st.bitmap (smallTotalSlots - start) start →
      st.bitmap (start + i) = true) ∧
    (start + countSetRun st.bitmap (smallTotalSlots - start) start =
        smallTotalSlots ∨
      st.bitmap
        (start + countSetRun st.bitmap (smallTotalSlots - start) start) =
        false) ∧
    (∀ j,
      (free_small st (smallPoolBase + start * SMALL_BLOCK_SIZE)).bitmap j =
        if start ≤ j ∧
            j < start + countSetRun st.bitmap (smallTotalSlots - start)
              start then
          false
        else st.bitmap j) ∧
    (free_small st
        (smallPoolBase + start * SMALL_BLOCK_SIZE)).stats.small_pool_used =
      st.stats.small_pool_used -
        countSetRun st.bitmap (smallTotalSlots - start) start *
          SMALL_BLOCK_SIZE ∧
    (free_small st
        (smallPoolBase + start * SMALL_BLOCK_SIZE)).stats.total_freed =
      st.stats.total_freed +
        min (countSetRun st.bitmap (smallTotalSlots - start) start *
          SMALL_BLOCK_SIZE) st.stats.total_allocated := by
  have hrange : ¬(smallPoolBase + start * SMALL_BLOCK_SIZE < smallPoolBase ∨
      smallPoolBase + SMALL_POOL_SIZE ≤
        smallPoolBase + start * SMALL_BLOCK_SIZE) := by
    unfold smallPoolBase SMALL_POOL_SIZE SMALL_BLOCK_SIZE
    unfold smallTotalSlots SMALL_POOL_SIZE SMALL_BLOCK_SIZE at hstart
    omega
  have hstart' : (smallPoolBase + start * SMALL_BLOCK_SIZE -
      smallPoolBase) / SMALL_BLOCK_SIZE = start := by
    unfold smallPoolBase SMALL_BLOCK_SIZE
    omega
  have hrun_pos : 0 < countSetRun st.bitmap (smallTotalSlots - start)
      start := by
    rcases hfuel : smallTotalSlots - start with _ | f
    · omega
    · rw [countSetRun, if_pos hbit]
      omega
  have hfree : free_small st (smallPoolBase + start * SMALL_BLOCK_SIZE) =
      { st with
        bitmap := setBitsRun st.bitmap start false
          (countSetRun st.bitmap (smallTotalSlots - start) start)
        stats := update_stats_free
          (countSetRun st.bitmap (smallTotalSlots - start) start *
            SMALL_BLOCK_SIZE)
          { st.stats with
            small_pool_used :=
              if countSetRun st.bitmap (smallTotalSlots - start) start *
                  SMALL_BLOCK_SIZE ≤ st.stats.small_pool_used then
                st.stats.small_pool_used -
                  countSetRun st.bitmap (smallTotalSlots - start) start *
                    SMALL_BLOCK_SIZE
              else 0 } } := by
    unfold free_small
    rw [if_neg hrange]
    dsimp only
    rw [hstart', if_pos hrun_pos]
  refine ⟨countSetRun_set st.bitmap _ start, ?_, ?_, ?_, ?_⟩
  · rcases Nat.lt_or_ge (countSetRun st.bitmap (smallTotalSlots - start)
      start) (smallTotalSlots - start) with hlt | hge
    · exact Or.inr (countSetRun_max st.bitmap _ start hlt)
    · have hle := countSetRun_le st.bitmap (smallTotalSlots - start) start
      omega
  · intro j
    rw [hfree]
    exact setBitsRun_spec false _ st.bitmap start j
  · rw [hfree]
    dsimp only
    rw [update_stats_free_spu]
    dsimp only
    split <;> omega
  · rw [hfree]
    dsimp only
    rw [update_stats_free_freed]

/-- Witness for C9: slots 0–3 hold one live allocation and slots 4–5 a
second one; freeing slot 0's pointer clears all six bits (the second
allocation's too) and subtracts 192 bytes. -/
def demoSmallBitmap : Nat → Bool := fun j => decide (j < 6)

theorem c9_free_small_run_witness :
    (∀ i, i < countSetRun demoSmallBitmap (smallTotalSlots - 0) 0 →
      demoSmallBitmap (0 + i) = true) ∧
    (0 + countSetRun demoSmallBitmap (smallTotalSlots - 0) 0 =
        smallTotalSlots ∨
      demoSmallBitmap
        (0 + countSetRun demoSmallBitmap (smallTotalSlots - 0) 0) =
        false) ∧
    (∀ j,
      (free_small ⟨[], none, demoSmallBitmap, ⟨192, 0, 2, 192, 192⟩⟩
          (smallPoolBase + 0 * SMALL_BLOCK_SIZE)).bitmap j =
        if 0 ≤ j ∧
            j < 0 + countSetRun demoSmallBitmap (smallTotalSlots - 0) 0 then
          false
        else demoSmallBitmap j) ∧
    (free_small ⟨[], none, demoSmallBitmap, ⟨192, 0, 2, 192, 192⟩⟩
        (smallPoolBase + 0 * SMALL_BLOCK_SIZE)).stats.small_pool_used =
      192 - countSetRun demoSmallBitmap (smallTotalSlots - 0) 0 *
        SMALL_BLOCK_SIZE ∧
    (free_small ⟨[], none, demoSmallBitmap, ⟨192, 0, 2, 192, 192⟩⟩
        (smallPoolBase + 0 * SMALL_BLOCK_SIZE)).stats.total_freed =
      0 + min (countSetRun demoSmallBitmap (smallTotalSlots - 0) 0 *
        SMALL_BLOCK_SIZE) 192 :=
  c9_free_small_run ⟨[], none, demoSmallBitmap, ⟨192, 0, 2, 192, 192⟩⟩ 0
    (by decide) (by decide)

/-! ## Claim C10 — `_memset` equals the naive byte loop

Memory is a byte map `Nat → Nat`.  A 64-bit store of the repeated-byte
pattern (`custom_alloc_util.cpp:577,611`: eight copies of `v`, or zero)
decomposes into eight consecutive byte stores of `v`, which is how
`writeQwords` models it.  `memsetNaive` is the specification: the plain
byte-by-byte loop. -/

def setByte (m : Nat → Nat) (a v : Nat) : Nat → Nat :=
  fun x => if x = a then v else m x

/-- `n` consecutive byte stores of `v` starting at `a`. -/
def writeBytes : (Nat → Nat) → Nat → Nat → Nat → (Nat → Nat)
  | m, _, 0, _ => m
  | m, a, n + 1, v => writeBytes (setByte m a v) (a + 1) n v

/-- Specification: the naive loop sets every byte of
`[dest, dest + count)` to `(uint8_t) value`. -/
def memsetNaive (m : Nat → Nat) (dest value count : Nat) : Nat → Nat :=
  writeBytes m dest count (value % 256)

/-- `q` 64-bit stores of the pattern whose every byte is `v`. -/
def writeQwords : (Nat → Nat) → Nat → Nat → Nat → (Nat → Nat)
  | m, _, 0, _ => m
  | m, a, q + 1, v => writeQwords (writeBytes m a 8 v) (a + 8) q v

/-- `_memset` (`custom_alloc_util.cpp:556`): rejects null and zero
count, rejects counts above `HEAP_SIZE` without writing, takes the
aligned zero-fill fast path when possible, and otherwise fills an
alignment head byte-wise, then whole words of the repeated pattern,
then the tail byte-wise. -/
def memsetOp (m : Nat → Nat) (dest value count : Nat) : Nat → Nat :=
  if dest = 0 ∨ count = 0 then m
  else if HEAP_SIZE < count then m
  else
    let v := value % 256
    if v = 0 ∧ 8 ≤ count ∧ dest % 8 = 0 then
      let qwords := count / 8
      let m1 := writeQwords m dest qwords 0
      writeBytes m1 (dest + qwords * 8) (count - qwords * 8) 0
    else
      let hd := min ((8 - dest % 8) % 8) count
      let m1 := writeBytes m dest hd v
      if 8 ≤ count - hd then
        let q := (count - hd) / 8
        let m2 := writeQwords m1 (dest + hd) q v
        writeBytes m2 (dest + hd + q * 8) (count - hd - q * 8) v
      else
        writeBytes m1 (dest + hd) (count - hd) v

theorem writeBytes_concat (v : Nat) :
    ∀ (n : Nat) (m : Nat → Nat) (a k : Nat),
      writeBytes (writeBytes m a n v) (a + n) k v =
        writeBytes m a (n + k) v := by
  intro n
  induction n with
  | zero =>
    intro m a k
    simp [writeBytes]
  | succ j ih =>
    intro m a k
    have h1 : a + (j + 1) = (a + 1) + j := by omega
    have h2 : j + 1 + k = (j + k) + 1 := by omega
    rw [writeBytes, h1, ih, h2, writeBytes]

theorem writeQwords_eq (v : Nat) :
    ∀ (q : Nat) (m : Nat → Nat) (a : Nat),
      writeQwords m a q v = writeBytes m a (8 * q) v := by
  intro q
  induction q with
  | zero => intro m a; rfl
  | succ j ih =>
    intro m a
    rw [writeQwords, ih, writeBytes_concat,
      show (8 : Nat) * (j + 1) = 8 + 8 * j from by omega]

theorem writeBytes_spec (v : Nat) :
    ∀ (n : Nat) (m : Nat → Nat) (a x : Nat),
      writeBytes m a n v x = if a ≤ x ∧ x < a + n then v else m x := by
  intro n
  induction n with
  | zero =>
    intro m a x
    rw [writeBytes, if_neg (by omega)]
  | succ j ih =>
    intro m a x
    rw [writeBytes, ih]
    unfold setByte
    by_cases h1 : a + 1 ≤ x ∧ x < a + 1 + j
    · rw [if_pos h1, if_pos (by omega)]
    · rw [if_neg h1]
      by_cases h2 : x = a
      · rw [if_pos h2, if_pos (by omega)]
      · rw [if_neg h2, if_neg (by omega)]

/-- C10: for non-null `dest` and `0 < count ≤ HEAP_SIZE`, `_memset`'s
word-optimized paths compute exactly the naive byte-by-byte loop — which
sets every byte of `[dest, dest + count)` to `(uint8_t) value` and
nothing else — while `count > HEAP_SIZE` returns with no byte written. -/
theorem c10_memset (m : Nat → Nat) (dest value count : Nat) :
    (dest ≠ 0 → 0 < count → count ≤ HEAP_SIZE →
      memsetOp m dest value count = memsetNaive m dest value count) ∧
    (HEAP_SIZE < count → memsetOp m dest value count = m) ∧
    (∀ x, dest ≤ x → x < dest + count →
      memsetNaive m dest value count x = value % 256) ∧
    (∀ x, x < dest ∨ dest + count ≤ x →
      memsetNaive m dest value count x = m x) := by
  refine ⟨?_, ?_, ?_, ?_⟩
  · intro hd0 hc hcap
    unfold memsetOp
    rw [if_neg (by push_neg; exact ⟨hd0, by omega⟩), if_neg (by omega)]
    dsimp only
    by_cases hfast : value % 256 = 0 ∧ 8 ≤ count ∧ dest % 8 = 0
    · rw [if_pos hfast]
      have hdm := Nat.div_mul_le_self count 8
      rw [writeQwords_eq]
      have h8 : 8 * (count / 8) = count / 8 * 8 := by omega
      rw [h8, writeBytes_concat]
      have hcnt : count / 8 * 8 + (count - count / 8 * 8) = count := by
        omega
      rw [hcnt]
      unfold memsetNaive
      rw [hfast.1]
    · rw [if_neg hfast]
      set hd := min ((8 - dest % 8) % 8) count with hhd
      have hhdle : hd ≤ count := Nat.min_le_right _ _
      by_cases htail : 8 ≤ count - hd
      · rw [if_pos htail]
        set q := (count - hd) / 8 with hq
        have hdm : q * 8 ≤ count - hd := by
          rw [hq]
          exact Nat.div_mul_le_self _ 8
        rw [writeQwords_eq]
        have h8 : 8 * q = q * 8 := by omega
        rw [h8, writeBytes_concat, writeBytes_concat]
        have hcnt : hd + (q * 8 + (count - hd - q * 8)) = count := by omega
        rw [hcnt]
        unfold memsetNaive
        rfl
      · rw [if_neg htail]
        rw [writeBytes_concat]
        have hcnt : hd + (count - hd) = count := by omega
        rw [hcnt]
        unfold memsetNaive
        rfl
  · intro hcap
    unfold memsetOp
    by_cases h0 : dest = 0 ∨ count = 0
    · rw [if_pos h0]
    · rw [if_neg h0, if_pos hcap]
  · intro x hx1 hx2
    unfold memsetNaive
    rw [writeBytes_spec, if_pos ⟨hx1, hx2⟩]
  · intro x hx
    unfold memsetNaive
    rw [writeBytes_spec, if_neg (by omega)]

/-- Witness for C10: a small concrete fill (`dest = 20`, unaligned,
`count = 13`, value `0x1AB`) agrees with the naive loop, sets byte 25 to
`0xAB`, leaves byte 19 alone; an over-large count writes nothing. -/
theorem c10_memset_witness :
    memsetOp (fun _ => 7) 20 0x1AB 13 = memsetNaive (fun _ => 7) 20 0x1AB 13 ∧
    memsetNaive (fun _ => 7) 20 0x1AB 13 25 = 0x1AB % 256 ∧
    memsetNaive (fun _ => 7) 20 0x1AB 13 19 = 7 ∧
    memsetOp (fun _ => 7) 20 0x1AB (HEAP_SIZE + 1) = fun _ => 7 := by
  obtain ⟨h1, h2, h3, h4⟩ := c10_memset (fun _ => 7) 20 0x1AB 13
  refine ⟨h1 (by decide) (by decide) (by decide),
    h3 25 (by decide) (by decide), h4 19 (Or.inl (by decide)), ?_⟩
  obtain ⟨-, h2', -, -⟩ := c10_memset (fun _ => 7) 20 0x1AB (HEAP_SIZE + 1)
  exact h2' (by decide)
